import Mathlib

/-!
# Kafka receive adapter: envelope translation, partition workers, start-up

A shallow embedding of the Go sources

* `contrib/kafka/pkg/adapter/adapter.go` (package `kafka`),
* `pkg/adapter/kafkaevents/adapter.go` (package `kafkaevents`),
* `cmd/kafka_receive_adapter/main.go`,
* `pkg/reconciler/kafkasource/resources/receive_adapter.go`,

followed by the properties established about them.

Go `string` and `[]byte` values are both byte sequences and are embedded as
`List UInt8`; Go `int`, `int32` and `int64` values are embedded as `Int`.
-/

set_option linter.unusedVariables false
set_option exponentiation.threshold 4096

/-! ## Byte strings -/

/-- A Go `string` (or `[]byte`): a finite sequence of bytes. -/
abbrev GoString := List UInt8

/-- The bytes of a string literal (its UTF-8 encoding, as in a Go source file). -/
def bytes (s : String) : GoString := s.data.flatMap String.utf8EncodeChar

/-! ## `strconv.Itoa` / `strconv.FormatInt(_, 10)` -/

namespace strconv


/-- The ASCII digit for `d` (`byte('0' + d)`). -/
def digitByte (d : Nat) : UInt8 := UInt8.ofNat (48 + d)

/-- The digit loop of `strconv.formatBits` in base 10: while `u >= 10` the last
digit is written in front of what has been written, then the leading digit.
The first argument bounds the number of iterations. -/
def formatBitsAux : Nat → Nat → GoString → GoString
  | 0, u, acc => digitByte u :: acc
  | fuel + 1, u, acc =>
    if 10 ≤ u then formatBitsAux fuel (u / 10) (digitByte (u % 10) :: acc)
    else digitByte u :: acc

/-- Decimal digits of an unsigned value. -/
def formatBits (u : Nat) : GoString := formatBitsAux u u []

/-- `strconv.FormatInt(i, 10)`: a minus sign for negative values, then the digits
of the magnitude. -/
def FormatInt (i : Int) : GoString :=
  if i < 0 then 45 :: formatBits i.natAbs else formatBits i.toNat

/-- `strconv.Itoa(i)` is `FormatInt(int64(i), 10)`. -/
def Itoa (i : Int) : GoString := FormatInt i

/-- A byte is an ASCII decimal digit. -/
def IsDigitByte (b : UInt8) : Prop := 48 ≤ b.toNat ∧ b.toNat ≤ 57

/-- The number a digit string denotes. -/
def decVal (s : GoString) : Nat := s.foldl (fun a b => 10 * a + (b.toNat - 48)) 0

end strconv

/-! ## Records -/


/-- The fields of `sarama.ConsumerMessage` the adapter reads. `Partition` is an
`int32`, `Offset` an `int64`; `Timestamp` stands for the `time.Time` value. -/
structure ConsumerMessage where
  Key : GoString
  Value : GoString
  Partition : Int
  Offset : Int
  Timestamp : Int
deriving DecidableEq


/-! ## `encoding/json`

`jsonEncode` calls `json.Unmarshal(value, &payload)` with `payload` a
`map[string]interface{}`. The library is embedded as the byte-at-a-time scanner of
`encoding/json/scanner.go` (the states `stateBeginValue`, `stateInString`, `state0`,
... and the stack of parse states), carrying along the values that the decoder
builds for the members of a top-level object (each an `interface{}`). -/

namespace json

/-- A JSON value as read, and as the decoder stores it in an `interface{}`: `nil`,
`bool`, `float64`, `string`, `[]interface{}` or `map[string]interface{}`. A number
is represented by its literal (the `float64` is the one converted from it); a map
by its entries in order of first insertion, with distinct keys. -/
inductive JValue where
  | null
  | bool (b : Bool)
  | number (lit : GoString)
  | string (s : GoString)
  | array (elems : List JValue)
  | object (members : List (GoString × JValue))

/-- The map assignment `m[k] = v`. -/
def mapSet (m : List (GoString × JValue)) (k : GoString) (v : JValue) :
    List (GoString × JValue) :=
  match m with
  | [] => [(k, v)]
  | (k₀, v₀) :: t => if k₀ = k then (k₀, v) :: t else (k₀, v₀) :: mapSet t k v

/-- `isSpace`: space, tab, carriage return, line feed. -/
def isSpace (c : UInt8) : Bool := c == 0x20 || c == 0x09 || c == 0x0D || c == 0x0A

/-- An ASCII decimal digit, as a test. -/
def isDigit (c : UInt8) : Bool := 0x30 ≤ c && c ≤ 0x39

/-- A hexadecimal digit: `0-9`, `a-f`, `A-F`. -/
def isHex (c : UInt8) : Bool :=
  (0x30 ≤ c && c ≤ 0x39) || (0x61 ≤ c && c ≤ 0x66) || (0x41 ≤ c && c ≤ 0x46)

/-- The value of a hexadecimal digit. -/
def hexVal (c : UInt8) : Nat :=
  if 0x30 ≤ c && c ≤ 0x39 then c.toNat - 0x30
  else if 0x61 ≤ c && c ≤ 0x66 then c.toNat - 0x61 + 10
  else c.toNat - 0x41 + 10

/-- `getu4`: the rune of a leading `\uXXXX` escape, if the bytes start with one. -/
def getu4 (s : GoString) : Option Nat :=
  match s with
  | 0x5C :: 0x75 :: a :: b :: c :: d :: _ =>
    if isHex a && isHex b && isHex c && isHex d then
      some (((hexVal a * 16 + hexVal b) * 16 + hexVal c) * 16 + hexVal d)
    else none
  | _ => none

/-- `utf8.EncodeRune`; surrogates and values beyond U+10FFFF are written as U+FFFD. -/
def encodeRune (r : Nat) : GoString :=
  if r < 0x80 then [UInt8.ofNat r]
  else if r < 0x800 then [UInt8.ofNat (0xC0 + r / 64), UInt8.ofNat (0x80 + r % 64)]
  else if (0xD800 ≤ r ∧ r < 0xE000) ∨ 0x10FFFF < r then [0xEF, 0xBF, 0xBD]
  else if r < 0x10000 then
    [UInt8.ofNat (0xE0 + r / 4096), UInt8.ofNat (0x80 + r / 64 % 64), UInt8.ofNat (0x80 + r % 64)]
  else
    [UInt8.ofNat (0xF0 + r / 262144), UInt8.ofNat (0x80 + r / 4096 % 64),
      UInt8.ofNat (0x80 + r / 64 % 64), UInt8.ofNat (0x80 + r % 64)]

/-- A UTF-8 continuation byte in the range `lo..hi`. -/
def inRange (lo hi : UInt8) (c : UInt8) : Bool := lo ≤ c && c ≤ hi

/-- The width that `utf8.DecodeRune` reports for the sequence starting with the
non-ASCII byte `c` followed by `rest`; `0` stands for an invalid encoding
(`RuneError` of width 1). -/
def utf8Size (c : UInt8) (rest : GoString) : Nat :=
  let second (lo hi : UInt8) : Bool :=
    match rest with
    | b :: _ => inRange lo hi b
    | [] => false
  let third : Bool :=
    match rest with
    | _ :: b :: _ => inRange 0x80 0xBF b
    | _ => false
  let fourth : Bool :=
    match rest with
    | _ :: _ :: b :: _ => inRange 0x80 0xBF b
    | _ => false
  if inRange 0xC2 0xDF c then (if second 0x80 0xBF then 2 else 0)
  else if c = 0xE0 then (if second 0xA0 0xBF && third then 3 else 0)
  else if inRange 0xE1 0xEC c then (if second 0x80 0xBF && third then 3 else 0)
  else if c = 0xED then (if second 0x80 0x9F && third then 3 else 0)
  else if inRange 0xEE 0xEF c then (if second 0x80 0xBF && third then 3 else 0)
  else if c = 0xF0 then (if second 0x90 0xBF && third && fourth then 4 else 0)
  else if inRange 0xF1 0xF3 c then (if second 0x80 0xBF && third && fourth then 4 else 0)
  else if c = 0xF4 then (if second 0x80 0x8F && third && fourth then 4 else 0)
  else 0

/-- The byte a two-character escape stands for (`unquoteBytes` accepts `\'` as
well; the scanner never lets it through). -/
def simpleEscape (e : UInt8) : Option UInt8 :=
  if e = 0x22 ∨ e = 0x5C ∨ e = 0x2F ∨ e = 0x27 then some e
  else if e = 0x62 then some 0x08
  else if e = 0x66 then some 0x0C
  else if e = 0x6E then some 0x0A
  else if e = 0x72 then some 0x0D
  else if e = 0x74 then some 0x09
  else none

/-- The loop of `unquoteBytes` over the bytes between the quotes. The first
argument counts bytes already consumed by the step before (the rest of an escape
or of a multi-byte sequence). -/
def unquoteAux : Nat → GoString → Option GoString
  | _, [] => some []
  | k + 1, _ :: rest => unquoteAux k rest
  | 0, c :: rest =>
    if c = 0x5C then
      match rest with
      | [] => none
      | e :: _ =>
        if e = 0x75 then
          match getu4 (c :: rest) with
          | none => none
          | some rr =>
            if 0xD800 ≤ rr ∧ rr < 0xE000 then
              match getu4 (rest.drop 5) with
              | some rr1 =>
                if rr < 0xDC00 ∧ 0xDC00 ≤ rr1 ∧ rr1 < 0xE000 then
                  (unquoteAux 11 rest).map
                    (encodeRune ((rr - 0xD800) * 1024 + (rr1 - 0xDC00) + 0x10000) ++ ·)
                else (unquoteAux 5 rest).map (encodeRune 0xFFFD ++ ·)
              | none => (unquoteAux 5 rest).map (encodeRune 0xFFFD ++ ·)
            else (unquoteAux 5 rest).map (encodeRune rr ++ ·)
        else
          match simpleEscape e with
          | some b => (unquoteAux 1 rest).map (b :: ·)
          | none => none
    else if c = 0x22 ∨ c < 0x20 then none
    else if c < 0x80 then (unquoteAux 0 rest).map (c :: ·)
    else
      match utf8Size c rest with
      | 0 => (unquoteAux 0 rest).map (encodeRune 0xFFFD ++ ·)
      | n + 1 => (unquoteAux n rest).map ((c :: rest.take n) ++ ·)

/-- `unquoteBytes` on the bytes between the quotes of a string literal. -/
def unquoteBytes (s : GoString) : Option GoString := unquoteAux 0 s

/-- The decimal reading of a number literal: the digits of the integer and
fraction parts as one natural number, how many of them follow the point, and the
exponent with its sign. -/
structure Decimal where
  mant : Nat := 0
  fracLen : Nat := 0
  seenDot : Bool := false
  inExp : Bool := false
  expNeg : Bool := false
  exp : Nat := 0

/-- One byte of a number literal read into a `Decimal`. -/
def Decimal.read (d : Decimal) (c : UInt8) : Decimal :=
  if d.inExp then
    if c = 0x2D then { d with expNeg := true }
    else if isDigit c then { d with exp := 10 * d.exp + (c.toNat - 0x30) }
    else d
  else if c = 0x2E then { d with seenDot := true }
  else if c = 0x65 ∨ c = 0x45 then { d with inExp := true }
  else if isDigit c then
    { d with mant := 10 * d.mant + (c.toNat - 0x30),
             fracLen := if d.seenDot then d.fracLen + 1 else d.fracLen }
  else d

/-- The least magnitude that `strconv.ParseFloat(_, 64)` rounds to infinity: half
an ulp above the largest `float64`, that is `2^1024 - 2^970`. -/
def float64Overflow : Nat := 2 ^ 1024 - 2 ^ 970

/-- `strconv.ParseFloat(lit, 64)` reports a range error for the JSON number literal
`lit`: its magnitude `mant * 10^(exp - fracLen)` reaches `float64Overflow`. (A
value too small for a `float64` is rounded to zero without an error. The library
stops accumulating exponent digits past five; literals that long are read here by
their exact value.) -/
def floatOutOfRange (lit : GoString) : Bool :=
  let d := lit.foldl Decimal.read {}
  let up := if d.expNeg then 0 else d.exp
  let down := (if d.expNeg then d.exp else 0) + d.fracLen
  decide (float64Overflow * 10 ^ down ≤ d.mant * 10 ^ up)

/-- An entry of the scanner's `parseState` stack together with what the decoder has
built for it so far. `key` and `colon` are `parseObjectKey` (before the key, and
with the key read); `val` and `after` are `parseObjectValue` (before the value,
and with the value stored); `arr` is `parseArrayValue`. -/
inductive Frame where
  | arr (elems : List JValue)
  | key (m : List (GoString × JValue))
  | colon (m : List (GoString × JValue)) (k : GoString)
  | val (m : List (GoString × JValue)) (k : GoString)
  | after (m : List (GoString × JValue))

/-- The scanner's `step`: which state function reads the next byte. `lit rest v`
is inside `true`, `false` or `null` with `rest` still to come. -/
inductive Step where
  | beginValue | beginValueOrEmpty | beginStringOrEmpty | beginString
  | endValue | endTop
  | inString | inStringEsc | inStringEscU (seen : Nat)
  | neg | zero | one | dot | dot0 | e | eSign | e0
  | lit (rest : GoString) (v : JValue)
  | error

/-- The scanner with the decoder's state: the bytes of the literal being read, the
finished top-level value, and whether a number conversion has reported an error
(`d.savedError`). -/
structure Scanner where
  step : Step := .beginValue
  stack : List Frame := []
  tok : GoString := []
  top : Option JValue := none
  rangeErr : Bool := false

/-- The scanner's `s.error`. -/
def Scanner.fail (s : Scanner) : Scanner := { s with step := .error }

/-- A value has been read: it becomes the top-level value, the next array element,
the key of the next member, or the value of the member whose key was read. -/
def Scanner.emit (s : Scanner) (v : JValue) : Scanner :=
  match s.stack with
  | [] => { s with step := .endValue, top := some v, tok := [] }
  | .arr es :: fs => { s with step := .endValue, stack := .arr (es ++ [v]) :: fs, tok := [] }
  | .key m :: fs =>
    match v with
    | .string k => { s with step := .endValue, stack := .colon m k :: fs, tok := [] }
    | _ => s.fail
  | .val m k :: fs => { s with step := .endValue, stack := .after (mapSet m k v) :: fs, tok := [] }
  | _ => s.fail

/-- `stateEndValue` (with `stateEndTop` when the stack is empty). -/
def stateEndValue (s : Scanner) (c : UInt8) : Scanner :=
  match s.stack with
  | [] => if isSpace c then { s with step := .endTop } else s.fail
  | f :: fs =>
    if isSpace c then { s with step := .endValue }
    else
      match f with
      | .colon m k =>
        if c = 0x3A then { s with step := .beginValue, stack := .val m k :: fs } else s.fail
      | .after m =>
        if c = 0x2C then { s with step := .beginString, stack := .key m :: fs }
        else if c = 0x7D then Scanner.emit { s with stack := fs } (.object m)
        else s.fail
      | .arr es =>
        if c = 0x2C then { s with step := .beginValue }
        else if c = 0x5D then Scanner.emit { s with stack := fs } (.array es)
        else s.fail
      | _ => s.fail

/-- `stateBeginValue`. -/
def stateBeginValue (s : Scanner) (c : UInt8) : Scanner :=
  if isSpace c then s
  else if c = 0x7B then { s with step := .beginStringOrEmpty, stack := .key [] :: s.stack }
  else if c = 0x5B then { s with step := .beginValueOrEmpty, stack := .arr [] :: s.stack }
  else if c = 0x22 then { s with step := .inString, tok := [] }
  else if c = 0x2D then { s with step := .neg, tok := [c] }
  else if c = 0x30 then { s with step := .zero, tok := [c] }
  else if c = 0x74 then { s with step := .lit (bytes "rue") (.bool true) }
  else if c = 0x66 then { s with step := .lit (bytes "alse") (.bool false) }
  else if c = 0x6E then { s with step := .lit (bytes "ull") .null }
  else if 0x31 ≤ c ∧ c ≤ 0x39 then { s with step := .one, tok := [c] }
  else s.fail

/-- `stateBeginString`. -/
def stateBeginString (s : Scanner) (c : UInt8) : Scanner :=
  if isSpace c then s
  else if c = 0x22 then { s with step := .inString, tok := [] }
  else s.fail

/-- The value being read lies inside a top-level object: the outermost entry of the
stack is an object's. Only such values are decoded for a map target; a top-level
literal is not converted (`literalStore` reports the type mismatch) and a top-level
array is skipped (`d.skip`). -/
def inObject : List Frame → Bool
  | [] => false
  | [.arr _] => false
  | [_] => true
  | _ :: f :: fs => inObject (f :: fs)

/-- The end of a number literal; the byte that ended it goes to `stateEndValue`
(unless the scanner is in its error state, which it never leaves).
Inside a top-level object `convertNumber` stores the `float64`, or saves a range
error and leaves `nil`. Elsewhere the literal is kept as read: nothing converts it
for a map target. -/
def endNumber (s : Scanner) (c : UInt8) : Scanner :=
  let s₁ :=
    if inObject s.stack && floatOutOfRange s.tok then
      Scanner.emit { s with rangeErr := true } .null
    else s.emit (.number s.tok)
  match s₁.step with
  | .error => s₁
  | _ => stateEndValue s₁ c

/-- `state0`: after the integer part of a number. -/
def state0 (s : Scanner) (c : UInt8) : Scanner :=
  if c = 0x2E then { s with step := .dot, tok := s.tok ++ [c] }
  else if c = 0x65 ∨ c = 0x45 then { s with step := .e, tok := s.tok ++ [c] }
  else endNumber s c

/-- `stateESign`: after the sign of an exponent. -/
def stateESign (s : Scanner) (c : UInt8) : Scanner :=
  if isDigit c then { s with step := .e0, tok := s.tok ++ [c] } else s.fail

/-- One byte through the scanner: the dispatch on `s.step`. -/
def Scanner.next (s : Scanner) (c : UInt8) : Scanner :=
  match s.step with
  | .error => s
  | .beginValue => stateBeginValue s c
  | .beginValueOrEmpty =>
    if isSpace c then s
    else if c = 0x5D then
      match s.stack with
      | .arr es :: fs => Scanner.emit { s with stack := fs } (.array es)
      | _ => s.fail
    else stateBeginValue s c
  | .beginStringOrEmpty =>
    if isSpace c then s
    else if c = 0x7D then
      match s.stack with
      | .key m :: fs => Scanner.emit { s with stack := fs } (.object m)
      | _ => s.fail
    else stateBeginString s c
  | .beginString => stateBeginString s c
  | .endValue => stateEndValue s c
  | .endTop => if isSpace c then s else s.fail
  | .inString =>
    if c = 0x22 then
      match unquoteBytes s.tok with
      | some str => s.emit (.string str)
      | none => s.fail
    else if c = 0x5C then { s with step := .inStringEsc, tok := s.tok ++ [c] }
    else if c < 0x20 then s.fail
    else { s with tok := s.tok ++ [c] }
  | .inStringEsc =>
    if c = 0x62 ∨ c = 0x66 ∨ c = 0x6E ∨ c = 0x72 ∨ c = 0x74 ∨ c = 0x5C ∨ c = 0x2F ∨ c = 0x22 then
      { s with step := .inString, tok := s.tok ++ [c] }
    else if c = 0x75 then { s with step := .inStringEscU 0, tok := s.tok ++ [c] }
    else s.fail
  | .inStringEscU seen =>
    if isHex c then
      { s with step := if seen = 3 then .inString else .inStringEscU (seen + 1),
               tok := s.tok ++ [c] }
    else s.fail
  | .neg =>
    if c = 0x30 then { s with step := .zero, tok := s.tok ++ [c] }
    else if 0x31 ≤ c ∧ c ≤ 0x39 then { s with step := .one, tok := s.tok ++ [c] }
    else s.fail
  | .one => if isDigit c then { s with tok := s.tok ++ [c] } else state0 s c
  | .zero => state0 s c
  | .dot => if isDigit c then { s with step := .dot0, tok := s.tok ++ [c] } else s.fail
  | .dot0 =>
    if isDigit c then { s with tok := s.tok ++ [c] }
    else if c = 0x65 ∨ c = 0x45 then { s with step := .e, tok := s.tok ++ [c] }
    else endNumber s c
  | .e =>
    if c = 0x2B ∨ c = 0x2D then { s with step := .eSign, tok := s.tok ++ [c] }
    else stateESign s c
  | .eSign => stateESign s c
  | .e0 => if isDigit c then { s with tok := s.tok ++ [c] } else endNumber s c
  | .lit rest v =>
    match rest with
    | [] => s.fail
    | [x] => if c = x then s.emit v else s.fail
    | x :: xs => if c = x then { s with step := .lit xs v } else s.fail

/-- The scanner's `eof`: the input is complete if the top-level value has ended,
possibly after one more space is fed to end a number. -/
def Scanner.eof (s : Scanner) : Option (JValue × Bool) :=
  match s.step with
  | .endTop => s.top.map (·, s.rangeErr)
  | _ =>
    let s₁ := s.next 0x20
    match s₁.step with
    | .endTop => s₁.top.map (·, s₁.rangeErr)
    | _ => none

/-- The whole input through the scanner and decoder: the top-level value read
(with the members of a top-level object as the decoder stores them) and whether a
number conversion saved a range error, or `none` for a syntax error. -/
def decode (data : GoString) : Option (JValue × Bool) :=
  (data.foldl Scanner.next {}).eof

/-- `checkValid`: the input is one well-formed JSON value. -/
def checkValid (data : GoString) : Bool := (decode data).isSome

/-- The error values of `json.Unmarshal`. -/
inductive JSONError where
  | SyntaxError
  | UnmarshalTypeError

/-- `json.Unmarshal(data, &payload)` for `var payload map[string]interface{}`: the
value of `payload` afterwards (`none` is the nil map) and the error returned.
A syntax error leaves `payload` untouched. Otherwise the error is `d.savedError`:
an object fills a fresh map and `null` sets the nil map, with the error saved for
a number outside the `float64` range, if any; a top-level array, string, number or
boolean does not fit the map and saves an `UnmarshalTypeError`. -/
def Unmarshal (data : GoString) : Option (List (GoString × JValue)) × Option JSONError :=
  match decode data with
  | none => (none, some .SyntaxError)
  | some (.object m, rangeErr) => (some m, if rangeErr then some .UnmarshalTypeError else none)
  | some (.null, rangeErr) => (none, if rangeErr then some .UnmarshalTypeError else none)
  | some (_, _) => (none, some .UnmarshalTypeError)

/-- The scanner's state is consistent with respect to the saved range error: once
the top-level value is finished the stack is empty and only white space may
follow; and a range error is saved only inside a top-level object, or after one
has been finished. -/
def Scanner.Good (s : Scanner) : Prop :=
  (s.top ≠ none → s.stack = [] ∧ (s.step = .endValue ∨ s.step = .endTop)) ∧
    (s.rangeErr = true →
      inObject s.stack = true ∨ (s.stack = [] ∧ ∃ m, s.top = some (.object m)))

/-- The invariant of the scanner: an error state, or a consistent one. -/
def Scanner.Inv (s : Scanner) : Prop := s.step = .error ∨ s.Good

end json

/-! ## Package `kafka` (contrib/kafka/pkg/adapter/adapter.go) -/

namespace kafka

/-- The constant `eventType`. -/
def eventType : GoString := bytes "dev.knative.kafka.event"

/-- The configuration fields of `Adapter` (`AdapterNet` flattened). The `client`
field is the cloudevents client; its `Send` is passed to the functions below. -/
structure Adapter where
  Brokers : GoString
  Topic : GoString
  ConsumerGroup : GoString
  SASLEnable : Bool
  SASLUser : GoString
  SASLPassword : GoString
  TLSEnable : Bool
  SinkURI : GoString

/-- The fields of `url.URL` (the content of a `types.URLRef`). -/
structure URLRef where
  Scheme : GoString := []
  Opaque : GoString := []
  Host : GoString := []
  Path : GoString := []
  RawPath : GoString := []
  RawQuery : GoString := []
  Fragment : GoString := []
deriving DecidableEq

/-- The `Data` of an event built by `postMessage`: the raw bytes or the decoded
`map[string]interface{}` (`none` is the nil map). -/
inductive EventData where
  | raw (value : GoString)
  | payload (m : Option (List (GoString × json.JValue)))

/-- The `cloudevents.Event` built by `postMessage`: the fields of its
`EventContextV02` (`Type_` is the field `Type`) and its `Data`. -/
structure Event where
  SpecVersion : GoString
  Type_ : GoString
  ID : GoString
  Time : Int
  Source : URLRef
  ContentType : GoString
  Extensions : List (GoString × GoString)
  Data : EventData

/-- `Adapter.jsonEncode`: the decoded payload, or the value itself when
`json.Unmarshal` returns an error (which is only logged). -/
def jsonEncode (value : GoString) : EventData :=
  match json.Unmarshal value with
  | (_, some _) => .raw value
  | (payload, none) => .payload payload

/-- The `ID` expression of `postMessage`:
`"partition:" + strconv.Itoa(int(msg.Partition)) + "/offset:" + strconv.FormatInt(msg.Offset, 10)`. -/
def eventID (partition offset : Int) : GoString :=
  bytes "partition:" ++ strconv.Itoa partition ++ bytes "/offset:" ++ strconv.FormatInt offset

/-- The event literal of `postMessage`. `parseURLRef` is `types.ParseURLRef` (the
library's `url.Parse`, `nil` on a parse error); the literal dereferences its
result, so there is no event (the goroutine panics) when the topic does not
parse. -/
def buildEvent (parseURLRef : GoString → Option URLRef) (a : Adapter) (msg : ConsumerMessage) :
    Option Event :=
  match parseURLRef a.Topic with
  | none => none
  | some source =>
    some
      { SpecVersion := bytes "0.2"
        Type_ := eventType
        ID := eventID msg.Partition msg.Offset
        Time := msg.Timestamp
        Source := source
        ContentType := bytes "application/json"
        Extensions := [(bytes "key", msg.Key)]
        Data := jsonEncode msg.Value }

/-- What a worker does that is visible outside it, in order: a call of
`a.client.Send` with an event, and a call of `consumer.MarkOffset` with a record.
(Log lines are left out.) -/
inductive Action where
  | send (e : Event)
  | markOffset (msg : ConsumerMessage)

/-- The state threaded through the adapter: the actions so far and the number of
`Send` calls made. -/
structure Run where
  trace : List Action := []
  sends : Nat := 0

/-- How a call ends: it returns a value, it blocks forever on a channel, or it
panics. -/
inductive Exit (α : Type) where
  | done (x : α) (w : Run)
  | blocked (w : Run)
  | panicked (w : Run)

/-- The library and the outside world as the adapter sees them: `parseURLRef` is
`types.ParseURLRef`; `outcome n` is the error (or `none` for `nil`) that the
`n`-th call of `a.client.Send` returns. -/
structure World where
  parseURLRef : GoString → Option URLRef
  outcome : Nat → Option GoString

/-- `Adapter.postMessage`: build the event, send it, return the error of `Send`. -/
def postMessage (env : World) (a : Adapter) (msg : ConsumerMessage) (w : Run) :
    Exit (Option GoString) :=
  match buildEvent env.parseURLRef a msg with
  | none => .panicked w
  | some event =>
    .done (env.outcome w.sends) { trace := w.trace ++ [.send event], sends := w.sends + 1 }

/-- A `cluster.PartitionConsumer`: the records its `Messages()` channel yields, and
whether the channel is closed after them (otherwise a receive blocks forever). -/
structure PartitionConsumer where
  messages : List ConsumerMessage
  closed : Bool

/-- The loop `for msg := range partitionConsumer.Messages()` of
`Adapter.consumerMessages` over the records still to come: post the record, log an
error if there is one, mark the offset, go on. -/
def consumerLoop (env : World) (a : Adapter) (closed : Bool) :
    List ConsumerMessage → Run → Exit Unit
  | [], w => if closed then .done () w else .blocked w
  | msg :: rest, w =>
    match postMessage env a msg w with
    | .done _ w₁ =>
      consumerLoop env a closed rest { w₁ with trace := w₁.trace ++ [.markOffset msg] }
    | .blocked w₁ => .blocked w₁
    | .panicked w₁ => .panicked w₁

/-- `Adapter.consumerMessages`. -/
def consumerMessages (env : World) (a : Adapter) (pc : PartitionConsumer) (w : Run) : Exit Unit :=
  consumerLoop env a pc.closed pc.messages w

/-- The two channels `pollForMessages` selects on. `partitions` are the values that
`consumer.Partitions()` yields and `partitionsClosed` says whether it is closed
after them. With `stopAfter = some n` the stop channel is closed once `n` calls of
`Send` have been made (so `some (n + 1)` raises the signal while the `n + 1`-th
delivery is in flight), or while a `select` waits if that many are never made;
with `none` it is never closed. `takeStop i` is the choice of the `i`-th `select`
when both of its cases are ready. -/
structure Channels where
  partitions : List PartitionConsumer
  partitionsClosed : Bool
  stopAfter : Option Nat
  takeStop : Nat → Bool

/-- The stop channel is closed in state `w`. -/
def stopRaised (stopAfter : Option Nat) (w : Run) : Bool :=
  match stopAfter with
  | none => false
  | some n => decide (n ≤ w.sends)

/-- The `for { select { ... } }` of `Adapter.pollForMessages` over the partitions
still to come, at its `i`-th `select`. The result `done none` is `return nil`. -/
def pollLoop (env : World) (a : Adapter) (ch : Channels) :
    List PartitionConsumer → Nat → Run → Exit (Option GoString)
  | [], _, w =>
    if stopRaised ch.stopAfter w then .done none w
    else if ch.partitionsClosed then .done none w
    else if ch.stopAfter.isSome then .done none w
    else .blocked w
  | pc :: rest, i, w =>
    if stopRaised ch.stopAfter w && ch.takeStop i then .done none w
    else
      match consumerMessages env a pc w with
      | .done _ w₁ => pollLoop env a ch rest (i + 1) w₁
      | .blocked w₁ => .blocked w₁
      | .panicked w₁ => .panicked w₁

/-- `Adapter.pollForMessages`. -/
def pollForMessages (env : World) (a : Adapter) (ch : Channels) : Exit (Option GoString) :=
  pollLoop env a ch ch.partitions 0 {}

/-- The events sent in a trace, in order. -/
def sent : List Action → List Event
  | [] => []
  | .send e :: t => e :: sent t
  | .markOffset _ :: t => sent t

/-- The records whose offset was marked in a trace, in order. -/
def marked : List Action → List ConsumerMessage
  | [] => []
  | .send _ :: t => marked t
  | .markOffset m :: t => m :: marked t

/-- The trace `[send e1, markOffset r1, send e2, markOffset r2, ...]`: the envelopes
and the records taken in turn. -/
def alternate : List Event → List ConsumerMessage → List Action
  | e :: es, m :: ms => .send e :: .markOffset m :: alternate es ms
  | _, _ => []

end kafka

/-! ## Package `kafkaevents` (pkg/adapter/kafkaevents/adapter.go) -/

namespace kafkaevents

/-- The configuration fields of `Adapter`. -/
structure Adapter where
  Brokers : GoString
  Topic : GoString
  ConsumerGroup : GoString
  SinkURI : GoString
deriving DecidableEq

/-- What the goroutines of one partition do that is visible outside them: `send msg`
is the `a.client.Send` of the `postMessage` goroutine started for `msg` (its event
carries `msg.Value`), `markOffset msg` is `consumer.MarkOffset(msg, "")`. -/
inductive Action where
  | send (msg : ConsumerMessage)
  | markOffset (msg : ConsumerMessage)
deriving DecidableEq

/-- The goroutine that `pollLoop` starts for a partition (`go func(pc
cluster.PartitionConsumer) {...}(part)`) and the goroutines it starts in turn.
`stream` holds the records not yet received; `posted` is the record for which
`go a.postMessage(msg.Value, logger)` has been executed and `MarkOffset` not yet;
`pending` are the `postMessage` goroutines started and not yet run. -/
structure Worker where
  stream : List ConsumerMessage
  posted : Option ConsumerMessage := none
  pending : List ConsumerMessage := []
  trace : List Action := []
deriving DecidableEq

/-- The scheduler's choice of the goroutine that runs next: the partition's loop, or
the `i`-th pending `postMessage`. -/
inductive Pick where
  | loop
  | post (i : Nat)

/-- One scheduling step; `none` when the chosen goroutine cannot run. The loop
receives a record and executes the `go` statement, which only starts a goroutine;
its next step is `MarkOffset`. A `postMessage` goroutine runs its `Send`. -/
def step (w : Worker) : Pick → Option Worker
  | .loop =>
    match w.posted with
    | some msg => some { w with posted := none, trace := w.trace ++ [.markOffset msg] }
    | none =>
      match w.stream with
      | [] => none
      | msg :: rest => some { w with stream := rest, posted := some msg, pending := w.pending ++ [msg] }
  | .post i =>
    match w.pending.get? i with
    | none => none
    | some msg => some { w with pending := w.pending.eraseIdx i, trace := w.trace ++ [.send msg] }

/-- A schedule run from a state. -/
def run : List Pick → Worker → Option Worker
  | [], w => some w
  | p :: ps, w =>
    match step w p with
    | none => none
    | some w₁ => run ps w₁

end kafkaevents

/-! ## The process entry point (cmd/kafka_receive_adapter/main.go) -/

namespace cmd

/-- The constant `envBrokers`. -/
def envBrokers : GoString := bytes "KAFKA_BROKERS"

/-- The constant `evenTopic`. -/
def evenTopic : GoString := bytes "KAFKA_TOPIC"

/-- The constant `envConsumerGroup`. -/
def envConsumerGroup : GoString := bytes "KAFKA_CONSUMER_GROUP"

/-- The constant `envSinkURI`. -/
def envSinkURI : GoString := bytes "SINK_URI"

/-- The process environment: the `key=value` entries in order. -/
abbrev Environ := List (GoString × GoString)

/-- `os.LookupEnv`: the value of the first entry for the key, if there is one. -/
def LookupEnv (env : Environ) (key : GoString) : Option GoString :=
  match env with
  | [] => none
  | (k, v) :: rest => if k = key then some v else LookupEnv rest key

/-- How `main` ends or how far it gets: `flag.Parse` exits, `log.Fatalf` ends the
process (for the logger, or for the required variable named), or `adapter.Start`
is called on the adapter built. -/
inductive Outcome where
  | flagExit
  | fatalLogger
  | fatalMissing (envKey : GoString)
  | start (adapter : kafkaevents.Adapter)
deriving DecidableEq

/-- `getRequiredEnv`: the value of the variable, or `log.Fatalf` (the process ends;
the error carries the key that is logged). -/
def getRequiredEnv (env : Environ) (envKey : GoString) : Except GoString GoString :=
  match LookupEnv env envKey with
  | none => .error envKey
  | some val => .ok val

/-- The function `main` up to the call of `adapter.Start`. `flagsParse` and
`loggerBuilds` say whether `flag.Parse()` and `logCfg.Build()` succeed. The fields
of the adapter literal are evaluated in the order written. -/
def main (flagsParse loggerBuilds : Bool) (env : Environ) : Outcome :=
  if !flagsParse then .flagExit
  else if !loggerBuilds then .fatalLogger
  else
    match getRequiredEnv env envBrokers with
    | .error k => .fatalMissing k
    | .ok brokers =>
      match getRequiredEnv env evenTopic with
      | .error k => .fatalMissing k
      | .ok topic =>
        match getRequiredEnv env envConsumerGroup with
        | .error k => .fatalMissing k
        | .ok group =>
          match getRequiredEnv env envSinkURI with
          | .error k => .fatalMissing k
          | .ok sink =>
            .start { Brokers := brokers, Topic := topic, ConsumerGroup := group, SinkURI := sink }

end cmd

/-! ## Package `resources` (pkg/reconciler/kafkasource/resources/receive_adapter.go) -/

namespace resources

/-- The fields of `v1alpha1.KafkaSource` that `MakeReceiveAdapter` reads (the type
is declared outside these sources; `Spec` is flattened). -/
structure KafkaSource where
  Namespace : GoString
  Name : GoString
  Brokers : GoString
  Topic : GoString
  ConsumerGroupID : GoString
  ServiceAccountName : GoString

/-- `ReceiveAdapterArgs`. -/
structure ReceiveAdapterArgs where
  Image : GoString
  Source : KafkaSource
  Labels : List (GoString × GoString)
  SinkURI : GoString

/-- `corev1.EnvVar`. -/
structure EnvVar where
  Name : GoString
  Value : GoString

/-- The fields of `corev1.Container` that are set. -/
structure Container where
  Name : GoString
  Image : GoString
  Env : List EnvVar

/-- The fields of `v1.Deployment` that are set (nested structs flattened). -/
structure Deployment where
  Namespace : GoString
  GenerateName : GoString
  Labels : List (GoString × GoString)
  SelectorMatchLabels : List (GoString × GoString)
  Replicas : Int
  TemplateAnnotations : List (GoString × GoString)
  TemplateLabels : List (GoString × GoString)
  ServiceAccountName : GoString
  Containers : List Container

/-- `MakeReceiveAdapter`: the one Deployment it returns. (The comment above it in the
source still calls it `MakeCloudEventKafka` and speaks of a Deployment and a
Service; the function builds no Service.) -/
def MakeReceiveAdapter (args : ReceiveAdapterArgs) : Deployment :=
  { Namespace := args.Source.Namespace
    GenerateName := bytes "kafkaeventsource-" ++ args.Source.Name ++ bytes "-"
    Labels := args.Labels
    SelectorMatchLabels := args.Labels
    Replicas := 1
    TemplateAnnotations := [(bytes "sidecar.istio.io/inject", bytes "true")]
    TemplateLabels := args.Labels
    ServiceAccountName := args.Source.ServiceAccountName
    Containers :=
      [{ Name := bytes "receive-adapter"
         Image := args.Image
         Env :=
           [{ Name := bytes "KAFKA_BROKERS", Value := args.Source.Brokers },
            { Name := bytes "KAFKA_TOPIC", Value := args.Source.Topic },
            { Name := bytes "KAFKA_CONSUMER_GROUP_ID", Value := args.Source.ConsumerGroupID },
            { Name := bytes "SINK_URI", Value := args.SinkURI }] }] }

/-- The environment of a process started in a container with exactly the
container's `Env`. -/
def processEnv (c : Container) : cmd.Environ := c.Env.map fun e => (e.Name, e.Value)

end resources

/-! ## Concrete inputs for the scenarios -/

namespace scenario

/-- A byte of a Kafka topic name: a letter, a digit, `.`, `_` or `-`. -/
def isNameByte (c : UInt8) : Bool :=
  (0x61 ≤ c && c ≤ 0x7A) || (0x41 ≤ c && c ≤ 0x5A) || (0x30 ≤ c && c ≤ 0x39) ||
    c == 0x2E || c == 0x5F || c == 0x2D

/-- What `types.ParseURLRef` yields for a name made of letters, digits, `.`, `_`
and `-`: `url.Parse` reads it as a relative reference with only `Path` set. Other
inputs are not covered here (`none`). -/
def parseName (topic : GoString) : Option kafka.URLRef :=
  if topic.all isNameByte then some { Path := topic } else none

/-- A world in which every `Send` succeeds. -/
def sinkUp : kafka.World := { parseURLRef := parseName, outcome := fun _ => none }

/-- A world in which every `Send` fails. -/
def sinkDown : kafka.World :=
  { parseURLRef := parseName, outcome := fun _ => some (bytes "connection refused") }

/-- An adapter reading the topic `orders`. -/
def orders : kafka.Adapter :=
  { Brokers := bytes "broker:9092", Topic := bytes "orders", ConsumerGroup := bytes "group",
    SASLEnable := false, SASLUser := [], SASLPassword := [], TLSEnable := false,
    SinkURI := bytes "http://sink" }

/-- The record `{partition:0, offset:5, value:{"a":1}, key:"k1"}`. -/
def record5 : ConsumerMessage :=
  { Key := bytes "k1", Value := bytes "\x7b\"a\":1\x7d", Partition := 0, Offset := 5, Timestamp := 1000 }

/-- The record after `record5` in its partition. -/
def record6 : ConsumerMessage :=
  { Key := bytes "k2", Value := bytes "not-json", Partition := 0, Offset := 6, Timestamp := 1001 }

/-- The record after `record6` in its partition. -/
def record7 : ConsumerMessage :=
  { Key := [], Value := bytes "[1]", Partition := 0, Offset := 7, Timestamp := 1002 }

/-- One partition whose stream holds three records and is then closed; the stop
signal is raised while the first delivery is in flight, and a `select` with both
cases ready takes the stop case. -/
def stopMidStream : kafka.Channels :=
  { partitions := [{ messages := [record5, record6, record7], closed := true }]
    partitionsClosed := false
    stopAfter := some 1
    takeStop := fun _ => true }

end scenario

/-! ## Decimal rendering and the envelope ID -/

section strconvLemmas

open strconv

theorem digitByte_toNat (d : Nat) (h : d < 10) : (digitByte d).toNat = 48 + d := by
  interval_cases d <;> rfl

theorem formatBitsAux_acc (fuel u : Nat) (acc : GoString) :
    formatBitsAux fuel u acc = formatBitsAux fuel u [] ++ acc := by
  induction fuel generalizing u acc with
  | zero => simp [formatBitsAux]
  | succ n ih =>
    unfold formatBitsAux
    split
    · rw [ih (u / 10) (digitByte (u % 10) :: acc), ih (u / 10) [digitByte (u % 10)]]
      simp
    · simp

theorem decVal_append_singleton (s : GoString) (b : UInt8) :
    decVal (s ++ [b]) = 10 * decVal s + (b.toNat - 48) := by
  simp [decVal, List.foldl_append]

theorem decVal_formatBitsAux (fuel u : Nat) (h : u ≤ fuel) :
    decVal (formatBitsAux fuel u []) = u := by
  induction fuel generalizing u with
  | zero =>
    have : u = 0 := by omega
    subst this
    rfl
  | succ n ih =>
    unfold formatBitsAux
    split
    · rw [formatBitsAux_acc, decVal_append_singleton, ih (u / 10) (by omega),
        digitByte_toNat _ (Nat.mod_lt _ (by decide))]
      omega
    · have hu : u < 10 := by omega
      simp [decVal, digitByte_toNat u hu]

theorem formatBitsAux_digits (fuel u : Nat) (acc : GoString) (h : u ≤ fuel)
    (hacc : ∀ b ∈ acc, IsDigitByte b) : ∀ b ∈ formatBitsAux fuel u acc, IsDigitByte b := by
  induction fuel generalizing u acc with
  | zero =>
    have : u = 0 := by omega
    subst this
    intro b hb
    simp [formatBitsAux] at hb
    rcases hb with rfl | hb
    · exact ⟨by decide, by decide⟩
    · exact hacc b hb
  | succ n ih =>
    unfold formatBitsAux
    split
    · apply ih (u / 10) _ (by omega)
      intro b hb
      simp at hb
      rcases hb with rfl | hb
      · have := digitByte_toNat (u % 10) (Nat.mod_lt _ (by decide))
        unfold IsDigitByte; omega
      · exact hacc b hb
    · intro b hb
      simp at hb
      rcases hb with rfl | hb
      · have := digitByte_toNat u (by omega)
        unfold IsDigitByte; omega
      · exact hacc b hb

theorem formatBitsAux_ne_nil (fuel u : Nat) (acc : GoString) : formatBitsAux fuel u acc ≠ [] := by
  induction fuel generalizing u acc with
  | zero => simp [formatBitsAux]
  | succ n ih =>
    unfold formatBitsAux
    split
    · exact ih _ _
    · simp

theorem formatBits_digits (u : Nat) : ∀ b ∈ formatBits u, IsDigitByte b :=
  formatBitsAux_digits u u [] (le_refl _) (by simp)

theorem formatBits_injective (u v : Nat) (h : formatBits u = formatBits v) : u = v := by
  have hu := decVal_formatBitsAux u u (le_refl _)
  have hv := decVal_formatBitsAux v v (le_refl _)
  unfold formatBits at h
  rw [h] at hu
  omega

theorem formatBits_head (u : Nat) : ∃ b t, formatBits u = b :: t ∧ IsDigitByte b := by
  have hne : formatBits u ≠ [] := formatBitsAux_ne_nil u u []
  cases hs : formatBits u with
  | nil => exact absurd hs hne
  | cons b t =>
    refine ⟨b, t, rfl, ?_⟩
    apply formatBits_digits u
    simp [hs]

theorem FormatInt_injective (i j : Int) (h : FormatInt i = FormatInt j) : i = j := by
  unfold FormatInt at h
  by_cases hi : i < 0 <;> by_cases hj : j < 0
  · simp only [hi, hj, if_true] at h
    have := formatBits_injective _ _ (List.cons.inj h).2
    omega
  · simp only [hi, hj, if_true, if_false] at h
    obtain ⟨b, t, hbt, hb⟩ := formatBits_head j.toNat
    rw [hbt] at h
    have : b = 45 := (List.cons.inj h).1.symm
    subst this
    exact absurd hb (by unfold IsDigitByte; decide)
  · simp only [hi, hj, if_true, if_false] at h
    obtain ⟨b, t, hbt, hb⟩ := formatBits_head i.toNat
    rw [hbt] at h
    have : b = 45 := (List.cons.inj h).1
    subst this
    exact absurd hb (by unfold IsDigitByte; decide)
  · simp only [hi, hj, if_false] at h
    have := formatBits_injective _ _ h
    omega

theorem FormatInt_no_slash (i : Int) : (47 : UInt8) ∉ FormatInt i := by
  have hd : ¬ IsDigitByte 47 := by unfold IsDigitByte; decide
  unfold FormatInt
  split
  · intro hm
    simp at hm
    exact hd (formatBits_digits _ _ hm)
  · intro hm
    exact hd (formatBits_digits _ _ hm)

theorem append_cons_split {α : Type} (c : α) (l₁ l₂ r₁ r₂ : List α) (h₁ : c ∉ l₁) (h₂ : c ∉ l₂)
    (h : l₁ ++ c :: r₁ = l₂ ++ c :: r₂) : l₁ = l₂ ∧ r₁ = r₂ := by
  induction l₁ generalizing l₂ with
  | nil =>
    cases l₂ with
    | nil => simpa using h
    | cons b t =>
      simp at h
      exact absurd (by simp [h.1]) h₂
  | cons a t ih =>
    cases l₂ with
    | nil =>
      simp at h
      exact absurd (by simp [h.1]) h₁
    | cons b t₂ =>
      simp at h
      obtain ⟨hab, ht⟩ := h
      have := ih t₂ (fun hm => h₁ (List.mem_cons_of_mem _ hm))
        (fun hm => h₂ (List.mem_cons_of_mem _ hm)) ht
      exact ⟨by rw [hab, this.1], this.2⟩

end strconvLemmas

/-- C1. The envelope ID of contrib/kafka `postMessage` is a function of
(partition, offset) alone and is injective: two IDs are equal exactly when the
partitions and the offsets are equal. It holds for all integers, so in particular
for every `int32` partition and `int64` offset, negative values included. -/
theorem eventID_eq_iff (p₁ o₁ p₂ o₂ : Int) :
    kafka.eventID p₁ o₁ = kafka.eventID p₂ o₂ ↔ p₁ = p₂ ∧ o₁ = o₂ := by
  constructor
  · intro h
    have hoff : bytes "/offset:" = 47 :: bytes "offset:" := by decide
    unfold kafka.eventID strconv.Itoa at h
    rw [hoff] at h
    simp only [List.append_assoc, List.cons_append, List.append_cancel_left_eq] at h
    obtain ⟨hp, ho⟩ := append_cons_split 47 _ _ _ _ (FormatInt_no_slash p₁) (FormatInt_no_slash p₂) h
    exact ⟨FormatInt_injective _ _ hp, FormatInt_injective _ _ (List.append_cancel_left ho)⟩
  · rintro ⟨rfl, rfl⟩
    rfl

/-! ## The scanner's saved range error -/

namespace json

theorem inObject_cons_cons (f g : Frame) (fs : List Frame) :
    inObject (f :: g :: fs) = inObject (g :: fs) := by
  simp [inObject]

theorem inObject_of_cons (f : Frame) (fs : List Frame) (h : inObject fs = true) :
    inObject (f :: fs) = true := by
  cases fs with
  | nil => simp [inObject] at h
  | cons g gs => rw [inObject_cons_cons]; exact h

theorem inObject_tail (f : Frame) (fs : List Frame) (h : inObject (f :: fs) = true)
    (hfs : fs ≠ []) : inObject fs = true := by
  cases fs with
  | nil => exact absurd rfl hfs
  | cons g gs => rwa [inObject_cons_cons] at h

theorem Inv_fail (s : Scanner) : s.fail.Inv := Or.inl rfl

/-- A value delivered to a state with no finished top-level value. -/
theorem Inv_emit (s : Scanner) (v : JValue) (htop : s.top = none)
    (hr : s.rangeErr = true → s.stack ≠ [] → inObject s.stack = true)
    (hv : s.stack = [] → s.rangeErr = true → ∃ m, v = .object m) : (s.emit v).Inv := by
  unfold Scanner.emit
  cases hst : s.stack with
  | nil =>
    right
    refine ⟨fun _ => ⟨by simp [hst], Or.inl rfl⟩, fun hr₁ => Or.inr ⟨by simp [hst], ?_⟩⟩
    obtain ⟨m, hm⟩ := hv hst hr₁
    exact ⟨m, by simp [hm]⟩
  | cons f fs =>
    have hin : s.rangeErr = true → inObject (f :: fs) = true := fun h => by
      have := hr h (by simp [hst])
      rwa [hst] at this
    cases f with
    | arr es =>
      right
      refine ⟨fun hc => absurd htop hc, fun h => Or.inl ?_⟩
      have h3 := hin h
      cases fs with
      | nil => simp [inObject] at h3
      | cons g gs => simpa [inObject] using h3
    | key m =>
      cases v with
      | string k =>
        right
        refine ⟨fun hc => absurd htop hc, fun h => Or.inl ?_⟩
        have h3 := hin h
        cases fs with
        | nil => simp [inObject]
        | cons g gs => simpa [inObject] using h3
      | _ => exact Inv_fail s
    | val m k =>
      right
      refine ⟨fun hc => absurd htop hc, fun h => Or.inl ?_⟩
      have h3 := hin h
      cases fs with
      | nil => simp [inObject]
      | cons g gs => simpa [inObject] using h3
    | colon m k => exact Inv_fail s
    | after m => exact Inv_fail s

theorem Inv_stateEndValue (s : Scanner) (c : UInt8) (h : s.Good) : (stateEndValue s c).Inv := by
  obtain ⟨h1, h2⟩ := h
  unfold stateEndValue
  cases hst : s.stack with
  | nil =>
    simp only
    split
    · right
      refine ⟨fun hc => ⟨rfl, Or.inr rfl⟩, fun hr => ?_⟩
      simpa [hst] using h2 hr
    · exact Inv_fail s
  | cons f fs =>
    have htop : s.top = none := by
      by_contra hc
      have := (h1 hc).1
      rw [hst] at this
      cases this
    have hin : s.rangeErr = true → inObject (f :: fs) = true := fun hr => by
      rcases h2 hr with h3 | ⟨h3, _⟩
      · rwa [hst] at h3
      · rw [hst] at h3; cases h3
    simp only
    split
    · right
      refine ⟨fun hc => absurd htop hc, fun hr => Or.inl ?_⟩
      simpa [hst] using hin hr
    · cases f with
      | colon m k =>
        simp only
        split
        · right
          refine ⟨fun hc => absurd htop hc, fun hr => Or.inl ?_⟩
          have h3 := hin hr
          cases fs with
          | nil => simp [inObject]
          | cons g gs => simpa [inObject] using h3
        · exact Inv_fail s
      | after m =>
        simp only
        split
        · right
          refine ⟨fun hc => absurd htop hc, fun hr => Or.inl ?_⟩
          have h3 := hin hr
          cases fs with
          | nil => simp [inObject]
          | cons g gs => simpa [inObject] using h3
        · split
          · apply Inv_emit
            · exact htop
            · intro hr hne
              exact inObject_tail _ _ (hin hr) hne
            · intro _ _
              exact ⟨m, rfl⟩
          · exact Inv_fail s
      | arr es =>
        simp only
        split
        · right
          refine ⟨fun hc => absurd htop hc, fun hr => Or.inl ?_⟩
          simpa [hst] using hin hr
        · split
          · apply Inv_emit
            · exact htop
            · intro hr hne
              exact inObject_tail _ _ (hin hr) hne
            · intro hfs hr
              have h3 := hin hr
              simp only at hfs
              subst hfs
              simp [inObject] at h3
          · exact Inv_fail s
      | key m => exact Inv_fail s
      | val m k => exact Inv_fail s


theorem Good.top_none (s : Scanner) (hg : s.Good) (h₁ : s.step ≠ .endValue)
    (h₂ : s.step ≠ .endTop) : s.top = none := by
  by_contra hc
  rcases (hg.1 hc).2 with h | h
  · exact h₁ h
  · exact h₂ h

theorem Inv_update (s : Scanner) (st : Step) (tok : GoString) (hg : s.Good)
    (htop : s.top = none) : Scanner.Inv { s with step := st, tok := tok } :=
  Or.inr ⟨fun hc => absurd htop hc, fun hr => hg.2 hr⟩

theorem Inv_push (s : Scanner) (f : Frame) (st : Step) (hg : s.Good) (htop : s.top = none) :
    Scanner.Inv { s with step := st, stack := f :: s.stack } := by
  refine Or.inr ⟨fun hc => absurd htop hc, fun hr => Or.inl ?_⟩
  rcases hg.2 hr with h | ⟨_, m, hm⟩
  · exact inObject_of_cons _ _ h
  · rw [htop] at hm; cases hm

theorem Inv_stateBeginValue (s : Scanner) (c : UInt8) (hg : s.Good) (htop : s.top = none) :
    (stateBeginValue s c).Inv := by
  unfold stateBeginValue
  repeat' split
  all_goals first
    | exact Or.inr hg
    | exact Inv_fail s
    | exact Inv_push s _ _ hg htop
    | exact Inv_update s _ _ hg htop

theorem Inv_stateBeginString (s : Scanner) (c : UInt8) (hg : s.Good) (htop : s.top = none) :
    (stateBeginString s c).Inv := by
  unfold stateBeginString
  repeat' split
  all_goals first
    | exact Or.inr hg
    | exact Inv_fail s
    | exact Inv_update s _ _ hg htop

theorem Inv_endNumber (s : Scanner) (c : UInt8) (hg : s.Good) (htop : s.top = none) :
    (endNumber s c).Inv := by
  have hin : s.rangeErr = true → inObject s.stack = true := fun hr => by
    rcases hg.2 hr with h | ⟨_, m, hm⟩
    · exact h
    · rw [htop] at hm; cases hm
  have key : ∀ s₁ : Scanner, s₁.Inv →
      (match s₁.step with
        | .error => s₁
        | _ => stateEndValue s₁ c).Inv := by
    intro s₁ h₁
    split
    · exact h₁
    · rename_i hne
      rcases h₁ with h | h
      · exact absurd h (by simpa using hne)
      · exact Inv_stateEndValue s₁ c h
  unfold endNumber
  apply key
  split
  · rename_i hcond
    simp only [Bool.and_eq_true] at hcond
    apply Inv_emit
    · exact htop
    · intro _ _; exact hcond.1
    · intro hst _
      have := hcond.1
      simp only at hst
      rw [hst] at this
      simp [inObject] at this
  · apply Inv_emit
    · exact htop
    · intro hr _; exact hin hr
    · intro hst hr
      have := hin hr
      rw [hst] at this
      simp [inObject] at this

theorem Inv_state0 (s : Scanner) (c : UInt8) (hg : s.Good) (htop : s.top = none) :
    (state0 s c).Inv := by
  unfold state0
  repeat' split
  all_goals first
    | exact Inv_endNumber s c hg htop
    | exact Inv_update s _ _ hg htop

theorem Inv_stateESign (s : Scanner) (c : UInt8) (hg : s.Good) (htop : s.top = none) :
    (stateESign s c).Inv := by
  unfold stateESign
  split
  · exact Inv_update s _ _ hg htop
  · exact Inv_fail s

theorem Inv_pop (s : Scanner) (f : Frame) (fs : List Frame) (v : JValue) (hg : s.Good)
    (htop : s.top = none) (hst : s.stack = f :: fs)
    (hv : fs = [] → inObject [f] = true → ∃ m, v = .object m) :
    (Scanner.emit { s with stack := fs } v).Inv := by
  have hin : s.rangeErr = true → inObject (f :: fs) = true := fun hr => by
    rcases hg.2 hr with h | ⟨_, m, hm⟩
    · rwa [hst] at h
    · rw [htop] at hm; cases hm
  apply Inv_emit
  · exact htop
  · intro hr hne
    exact inObject_tail _ _ (hin hr) hne
  · intro hfs hr
    simp only at hfs
    have := hin hr
    rw [hfs] at this
    exact hv hfs this

theorem Inv_next (s : Scanner) (c : UInt8) (h : s.Inv) : (s.next c).Inv := by
  by_cases herr : s.step = .error
  · unfold Scanner.next
    rw [herr]
    exact h
  have hg : s.Good := h.resolve_left herr
  by_cases h₁ : s.step = .endValue
  · unfold Scanner.next
    rw [h₁]
    exact Inv_stateEndValue s c hg
  by_cases h₂ : s.step = .endTop
  · unfold Scanner.next
    rw [h₂]
    simp only
    split
    · exact Or.inr hg
    · exact Inv_fail s
  have htop : s.top = none := Good.top_none s hg h₁ h₂
  unfold Scanner.next
  split
  · exact h
  · exact Inv_stateBeginValue s c hg htop
  · split
    · exact Or.inr hg
    · split
      · split
        · rename_i es fs hst
          exact Inv_pop s _ fs _ hg htop hst (fun _ hc => by simp [inObject] at hc)
        · exact Inv_fail s
      · exact Inv_stateBeginValue s c hg htop
  · split
    · exact Or.inr hg
    · split
      · split
        · rename_i m fs hst
          exact Inv_pop s _ fs _ hg htop hst (fun _ _ => ⟨m, rfl⟩)
        · exact Inv_fail s
      · exact Inv_stateBeginString s c hg htop
  · exact Inv_stateBeginString s c hg htop
  · exact Inv_stateEndValue s c hg
  · split
    · exact Or.inr hg
    · exact Inv_fail s
  · -- inString
    split
    · split
      · apply Inv_emit
        · exact htop
        · intro hr _
          rcases hg.2 hr with h | ⟨_, m, hm⟩
          · exact h
          · rw [htop] at hm; cases hm
        · intro hst hr
          rcases hg.2 hr with h | ⟨_, m, hm⟩
          · rw [hst] at h; simp [inObject] at h
          · rw [htop] at hm; cases hm
      · exact Inv_fail s
    · repeat' split
      all_goals first
        | exact Inv_fail s
        | exact Inv_update s _ _ hg htop
  · repeat' split
    all_goals first
      | exact Inv_fail s
      | exact Inv_update s _ _ hg htop
  · repeat' split
    all_goals first
      | exact Inv_fail s
      | exact Inv_update s _ _ hg htop
  · repeat' split
    all_goals first
      | exact Inv_fail s
      | exact Inv_update s _ _ hg htop
  · split
    · exact Inv_update s _ _ hg htop
    · exact Inv_state0 s c hg htop
  · exact Inv_state0 s c hg htop
  · split
    · exact Inv_update s _ _ hg htop
    · exact Inv_fail s
  · repeat' split
    all_goals first
      | exact Inv_endNumber s c hg htop
      | exact Inv_update s _ _ hg htop
  · split
    · exact Inv_update s _ _ hg htop
    · exact Inv_stateESign s c hg htop
  · exact Inv_stateESign s c hg htop
  · split
    · exact Inv_update s _ _ hg htop
    · exact Inv_endNumber s c hg htop
  · -- lit
    split
    · exact Inv_fail s
    · split
      · apply Inv_emit
        · exact htop
        · intro hr _
          rcases hg.2 hr with h | ⟨_, m, hm⟩
          · exact h
          · rw [htop] at hm; cases hm
        · intro hst hr
          rcases hg.2 hr with h | ⟨_, m, hm⟩
          · rw [hst] at h; simp [inObject] at h
          · rw [htop] at hm; cases hm
      · exact Inv_fail s
    · split
      · exact Inv_update s _ _ hg htop
      · exact Inv_fail s

theorem Inv_foldl (data : GoString) : ∀ s : Scanner, s.Inv → (data.foldl Scanner.next s).Inv := by
  induction data with
  | nil => intro s h; exact h
  | cons c rest ih => intro s h; exact ih _ (Inv_next s c h)

theorem Inv_init : Scanner.Inv {} :=
  Or.inr ⟨fun hc => absurd rfl hc, fun hr => by cases hr⟩

theorem Inv_endTop (s : Scanner) (v : JValue) (h : s.Inv) (hstep : s.step = .endTop)
    (htop : s.top = some v) (hr : s.rangeErr = true) : ∃ m, v = .object m := by
  rcases h with h | hg
  · rw [hstep] at h; cases h
  · have hst := (hg.1 (by simp [htop])).1
    rcases hg.2 hr with h | ⟨_, m, hm⟩
    · rw [hst] at h; simp [inObject] at h
    · rw [htop] at hm
      exact ⟨m, by cases hm; rfl⟩

/-- A range error is saved only for a top-level object: whenever the decoder reports
one, the value read is an object. In particular a top-level number, whatever its
size, is read as a number with no range error. -/
theorem decode_rangeErr_object (data : GoString) (v : JValue)
    (h : decode data = some (v, true)) : ∃ m, v = .object m := by
  have hinv := Inv_foldl data {} Inv_init
  unfold decode Scanner.eof at h
  generalize data.foldl Scanner.next {} = s at h hinv
  split at h
  · rename_i hstep
    cases htop : s.top with
    | none => rw [htop] at h; cases h
    | some v₁ =>
      rw [htop] at h
      simp only [Option.map_some', Option.some.injEq, Prod.mk.injEq] at h
      exact Inv_endTop s v hinv hstep (by rw [htop, h.1]) h.2
  · have hinv₁ := Inv_next s 0x20 hinv
    generalize s.next 0x20 = s₁ at h hinv₁
    simp only at h
    split at h
    · rename_i hstep
      cases htop : s₁.top with
      | none => rw [htop] at h; cases h
      | some v₁ =>
        rw [htop] at h
        simp only [Option.map_some', Option.some.injEq, Prod.mk.injEq] at h
        exact Inv_endTop s₁ v hinv₁ hstep (by rw [htop, h.1]) h.2
    · cases h

end json

/-! ## `jsonEncode` -/

theorem json_checkValid_nil : json.checkValid [] = false := rfl

theorem json_decode_none_of_invalid (value : GoString) (h : json.checkValid value = false) :
    json.decode value = none := by
  unfold json.checkValid at h
  cases hd : json.decode value with
  | none => rfl
  | some x => rw [hd] at h; simp at h

theorem jsonEncode_of_decode_none (value : GoString) (h : json.decode value = none) :
    kafka.jsonEncode value = .raw value := by
  simp [kafka.jsonEncode, json.Unmarshal, h]

theorem jsonEncode_of_decode_object (value : GoString) (m : List (GoString × json.JValue))
    (h : json.decode value = some (.object m, false)) :
    kafka.jsonEncode value = .payload (some m) := by
  simp [kafka.jsonEncode, json.Unmarshal, h]

theorem jsonEncode_of_decode_object_range (value : GoString) (m : List (GoString × json.JValue))
    (h : json.decode value = some (.object m, true)) :
    kafka.jsonEncode value = .raw value := by
  simp [kafka.jsonEncode, json.Unmarshal, h]

theorem jsonEncode_of_decode_null (value : GoString)
    (h : json.decode value = some (.null, false)) :
    kafka.jsonEncode value = .payload none := by
  simp [kafka.jsonEncode, json.Unmarshal, h]

theorem jsonEncode_of_decode_null_any (value : GoString) (r : Bool)
    (h : json.decode value = some (.null, r)) :
    kafka.jsonEncode value = .payload none := by
  cases r with
  | false => exact jsonEncode_of_decode_null value h
  | true =>
    obtain ⟨m, hm⟩ := json.decode_rangeErr_object value _ h
    cases hm

theorem jsonEncode_of_decode_other (value : GoString) (v : json.JValue) (r : Bool)
    (h : json.decode value = some (v, r)) (hobj : ∀ m, v ≠ .object m) (hnull : v ≠ .null) :
    kafka.jsonEncode value = .raw value := by
  cases v with
  | null => exact absurd rfl hnull
  | object m => exact absurd rfl (hobj m)
  | bool b => simp [kafka.jsonEncode, json.Unmarshal, h]
  | number l => simp [kafka.jsonEncode, json.Unmarshal, h]
  | string s => simp [kafka.jsonEncode, json.Unmarshal, h]
  | array es => simp [kafka.jsonEncode, json.Unmarshal, h]

/-- C2. For every byte sequence that is empty or is not one well-formed JSON value
(`json.checkValid` rejects it), `jsonEncode` returns exactly that byte sequence:
the same bytes, hence the same length, and no error (the result type has none). -/
theorem jsonEncode_invalid_is_raw (value : GoString)
    (h : value = [] ∨ json.checkValid value = false) :
    kafka.jsonEncode value = .raw value := by
  apply jsonEncode_of_decode_none
  apply json_decode_none_of_invalid
  rcases h with rfl | h
  · exact json_checkValid_nil
  · exact h

/-- C2, the scenario of the specification: the value `not-json` (of the record at
partition 2, offset 9) is not well-formed JSON and the data are the bytes
`not-json`. -/
theorem jsonEncode_invalid_is_raw_witness :
    json.checkValid (bytes "not-json") = false ∧
      kafka.jsonEncode (bytes "not-json") = .raw (bytes "not-json") :=
  ⟨rfl, jsonEncode_invalid_is_raw (bytes "not-json") (Or.inr rfl)⟩

/-- C3 as stated fails: `{"a":1e999}` is a well-formed JSON object (it decodes to
an object), but the number does not fit a `float64`, `json.Unmarshal` returns an
error, and `jsonEncode` returns the raw bytes. -/
theorem jsonEncode_object_out_of_range :
    json.checkValid (bytes "\x7b\"a\":1e999\x7d") = true ∧
      json.decode (bytes "\x7b\"a\":1e999\x7d") = some (.object [(bytes "a", .null)], true) ∧
      kafka.jsonEncode (bytes "\x7b\"a\":1e999\x7d") = .raw (bytes "\x7b\"a\":1e999\x7d") :=
  ⟨rfl, rfl, rfl⟩

/-- C3, amended. For every byte sequence that is a well-formed JSON object all of
whose numbers fit a `float64` (it decodes to the mapping `m` with no range error),
`jsonEncode` returns the decoded mapping `m`, not the raw bytes. -/
theorem jsonEncode_object_is_payload (value : GoString) (m : List (GoString × json.JValue))
    (h : json.decode value = some (.object m, false)) :
    kafka.jsonEncode value = .payload (some m) ∧ kafka.jsonEncode value ≠ .raw value := by
  rw [jsonEncode_of_decode_object value m h]
  exact ⟨rfl, fun hc => by cases hc⟩

/-- C3, the scenario of the specification: `{"a":1}` gives the mapping `a -> 1`. -/
theorem jsonEncode_object_is_payload_witness :
    json.decode (bytes "\x7b\"a\":1\x7d") = some (.object [(bytes "a", .number (bytes "1"))], false) ∧
      kafka.jsonEncode (bytes "\x7b\"a\":1\x7d") = .payload (some [(bytes "a", .number (bytes "1"))]) :=
  ⟨rfl, (jsonEncode_object_is_payload (bytes "\x7b\"a\":1\x7d")
    [(bytes "a", .number (bytes "1"))] rfl).1⟩

/-- A top-level number too large for a `float64` is still a number that does not
fit the map: `1e999` and `[1e999]` come back as the raw bytes. -/
theorem jsonEncode_large_number_is_raw :
    json.decode (bytes "1e999") = some (.number (bytes "1e999"), false) ∧
      kafka.jsonEncode (bytes "1e999") = .raw (bytes "1e999") ∧
      kafka.jsonEncode (bytes "[1e999]") = .raw (bytes "[1e999]") ∧
      kafka.jsonEncode (bytes " -1e999 ") = .raw (bytes " -1e999 ") :=
  ⟨rfl, rfl, rfl, rfl⟩

/-- C6 as stated fails: `[1]` is valid JSON (an array) and the data are the raw
bytes, not the parsed array. -/
theorem jsonEncode_array_is_raw :
    json.checkValid (bytes "[1]") = true ∧
      json.decode (bytes "[1]") = some (.array [.number (bytes "1")], false) ∧
      kafka.jsonEncode (bytes "[1]") = .raw (bytes "[1]") :=
  ⟨rfl, rfl, rfl⟩

/-- C6, amended. The data of the envelope are decided by what the value decodes to:
the decoded mapping for a JSON object whose numbers fit a `float64`; the nil
mapping for JSON `null`; and the raw bytes in every other case, that is when the
value is not valid JSON, when it is a JSON array, string, number or boolean, and
when it is an object holding a number outside the `float64` range. -/
theorem jsonEncode_by_kind (value : GoString) :
    (∀ m, json.decode value = some (.object m, false) →
        kafka.jsonEncode value = .payload (some m)) ∧
    (∀ r, json.decode value = some (.null, r) → kafka.jsonEncode value = .payload none) ∧
    (json.checkValid value = false → kafka.jsonEncode value = .raw value) ∧
    (∀ es r, json.decode value = some (.array es, r) → kafka.jsonEncode value = .raw value) ∧
    (∀ s r, json.decode value = some (.string s, r) → kafka.jsonEncode value = .raw value) ∧
    (∀ l r, json.decode value = some (.number l, r) → kafka.jsonEncode value = .raw value) ∧
    (∀ b r, json.decode value = some (.bool b, r) → kafka.jsonEncode value = .raw value) ∧
    (∀ m, json.decode value = some (.object m, true) → kafka.jsonEncode value = .raw value) := by
  refine ⟨fun m h => jsonEncode_of_decode_object value m h,
    fun r h => jsonEncode_of_decode_null_any value r h,
    fun h => jsonEncode_of_decode_none value (json_decode_none_of_invalid value h),
    fun es r h => jsonEncode_of_decode_other value _ r h (fun m hc => by cases hc) (fun hc => by cases hc),
    fun s r h => jsonEncode_of_decode_other value _ r h (fun m hc => by cases hc) (fun hc => by cases hc),
    fun l r h => jsonEncode_of_decode_other value _ r h (fun m hc => by cases hc) (fun hc => by cases hc),
    fun b r h => jsonEncode_of_decode_other value _ r h (fun m hc => by cases hc) (fun hc => by cases hc),
    fun m h => jsonEncode_of_decode_object_range value m h⟩

/-! ## `postMessage` and the partition worker (contrib/kafka) -/

/-- C4. For every record and every adapter whose Topic parses as a URL reference
`u`, `postMessage` builds (and sends, as its one action) the envelope with type
`dev.knative.kafka.event`, source `u` (the reference parsed from the Topic), time
the record's timestamp, extensions the one entry `key` -> the record's key, id
`partition:<p>/offset:<o>` and data `jsonEncode` of the record's value. -/
theorem postMessage_envelope (env : kafka.World) (a : kafka.Adapter) (msg : ConsumerMessage)
    (w : kafka.Run) (u : kafka.URLRef) (h : env.parseURLRef a.Topic = some u) :
    ∃ ev : kafka.Event,
      kafka.buildEvent env.parseURLRef a msg = some ev ∧
      kafka.postMessage env a msg w =
        .done (env.outcome w.sends) { trace := w.trace ++ [.send ev], sends := w.sends + 1 } ∧
      ev.Type_ = bytes "dev.knative.kafka.event" ∧
      ev.Source = u ∧
      ev.Time = msg.Timestamp ∧
      ev.Extensions = [(bytes "key", msg.Key)] ∧
      ev.ID = bytes "partition:" ++ strconv.Itoa msg.Partition ++ bytes "/offset:" ++
        strconv.FormatInt msg.Offset ∧
      ev.Data = kafka.jsonEncode msg.Value := by
  simp only [kafka.postMessage, kafka.buildEvent, h]
  exact ⟨_, rfl, rfl, rfl, rfl, rfl, rfl, rfl, rfl⟩

/-- C4, the scenario of the specification: the record `{partition:0, offset:5,
value:{"a":1}, key:"k1"}` on topic `orders` gives id `partition:0/offset:5`, source
`orders`, extensions `{"key":"k1"}` and data `{"a":1}`. -/
theorem postMessage_envelope_witness :
    scenario.sinkUp.parseURLRef scenario.orders.Topic = some { Path := bytes "orders" } ∧
    ∃ ev : kafka.Event,
      kafka.buildEvent scenario.sinkUp.parseURLRef scenario.orders scenario.record5 = some ev ∧
      ev.ID = bytes "partition:0/offset:5" ∧
      ev.Type_ = bytes "dev.knative.kafka.event" ∧
      ev.Source = { Path := bytes "orders" } ∧
      ev.Extensions = [(bytes "key", bytes "k1")] ∧
      ev.Data = .payload (some [(bytes "a", .number (bytes "1"))]) := by
  refine ⟨rfl, ?_⟩
  obtain ⟨ev, hev, _, hty, hsrc, _, hext, hid, hdata⟩ :=
    postMessage_envelope scenario.sinkUp scenario.orders scenario.record5 {}
      { Path := bytes "orders" } rfl
  exact ⟨ev, hev, hid.trans (by decide), hty, hsrc, hext, hdata.trans rfl⟩

/-- The trace of the loop of `consumerMessages` when the Topic parses: each record
in turn is sent and then marked. -/
theorem consumerLoop_trace (env : kafka.World) (a : kafka.Adapter) (closed : Bool)
    (u : kafka.URLRef) (h : env.parseURLRef a.Topic = some u) (msgs : List ConsumerMessage) :
    ∀ w : kafka.Run, ∃ (w₁ : kafka.Run) (evs : List kafka.Event),
      kafka.consumerLoop env a closed msgs w = (if closed then .done () w₁ else .blocked w₁) ∧
      w₁.sends = w.sends + msgs.length ∧
      msgs.map (kafka.buildEvent env.parseURLRef a) = evs.map some ∧
      w₁.trace = w.trace ++ kafka.alternate evs msgs := by
  induction msgs with
  | nil =>
    intro w
    refine ⟨w, [], ?_, rfl, rfl, by simp [kafka.alternate]⟩
    unfold kafka.consumerLoop
    rfl
  | cons m rest ih =>
    intro w
    obtain ⟨ev, hev⟩ : ∃ ev, kafka.buildEvent env.parseURLRef a m = some ev := by
      simp only [kafka.buildEvent, h]; exact ⟨_, rfl⟩
    obtain ⟨w₁, evs, hrun, hs, hevs, htr⟩ := ih
      { trace := (w.trace ++ [.send ev]) ++ [.markOffset m], sends := w.sends + 1 }
    refine ⟨w₁, ev :: evs, ?_, ?_, ?_, ?_⟩
    · unfold kafka.consumerLoop
      simp only [kafka.postMessage, hev]
      exact hrun
    · simp only [List.length_cons] at hs ⊢; omega
    · simp [hev, hevs]
    · rw [htr]; simp [kafka.alternate]

theorem sent_alternate (evs : List kafka.Event) (msgs : List ConsumerMessage)
    (h : evs.length = msgs.length) : kafka.sent (kafka.alternate evs msgs) = evs := by
  induction evs generalizing msgs with
  | nil => cases msgs <;> simp [kafka.alternate, kafka.sent]
  | cons e es ih =>
    cases msgs with
    | nil => simp at h
    | cons m ms => simp [kafka.alternate, kafka.sent, ih ms (by simpa using h)]

theorem marked_alternate (evs : List kafka.Event) (msgs : List ConsumerMessage)
    (h : evs.length = msgs.length) : kafka.marked (kafka.alternate evs msgs) = msgs := by
  induction evs generalizing msgs with
  | nil =>
    cases msgs with
    | nil => simp [kafka.alternate, kafka.marked]
    | cons m ms => simp at h
  | cons e es ih =>
    cases msgs with
    | nil => simp at h
    | cons m ms => simp [kafka.alternate, kafka.marked, ih ms (by simpa using h)]

/-- C5. For every finite record stream `r1..rn` of one partition and every
assignment of delivery outcomes (each `Send` returns an error or `nil`), on an
adapter whose Topic parses, `consumerMessages` produces the trace
`[send e1, markOffset r1, ..., send en, markOffset rn]`, where `ei` is the envelope
of `ri`: one delivery attempt and one commit per record whatever the outcomes, in
stream order, each commit before the next attempt. After the last record it
returns if the stream is closed and waits for the next record otherwise. -/
theorem consumerMessages_trace (env : kafka.World) (a : kafka.Adapter)
    (msgs : List ConsumerMessage) (closed : Bool) (u : kafka.URLRef)
    (h : env.parseURLRef a.Topic = some u) :
    ∃ (w₁ : kafka.Run) (evs : List kafka.Event),
      kafka.consumerMessages env a { messages := msgs, closed := closed } {} =
        (if closed then .done () w₁ else .blocked w₁) ∧
      msgs.map (kafka.buildEvent env.parseURLRef a) = evs.map some ∧
      w₁.trace = kafka.alternate evs msgs ∧
      kafka.sent w₁.trace = evs ∧
      kafka.marked w₁.trace = msgs ∧
      w₁.sends = msgs.length := by
  obtain ⟨w₁, evs, hrun, hs, hevs, htr⟩ := consumerLoop_trace env a closed u h msgs {}
  have hlen : evs.length = msgs.length := by
    have := congrArg List.length hevs
    simpa using this.symm
  have htr₁ : w₁.trace = kafka.alternate evs msgs := by simpa using htr
  refine ⟨w₁, evs, by simpa [kafka.consumerMessages] using hrun, hevs, htr₁, ?_, ?_,
    by simpa using hs⟩
  · rw [htr₁]; exact sent_alternate evs msgs hlen
  · rw [htr₁]; exact marked_alternate evs msgs hlen

/-- C5 on a concrete stream: with a sink that refuses every delivery, the two
records are each sent and marked, in order. -/
theorem consumerMessages_trace_witness :
    scenario.sinkDown.parseURLRef scenario.orders.Topic = some { Path := bytes "orders" } ∧
    ∃ (w₁ : kafka.Run) (evs : List kafka.Event),
      kafka.consumerMessages scenario.sinkDown scenario.orders
        { messages := [scenario.record5, scenario.record6], closed := true } {} = .done () w₁ ∧
      kafka.marked w₁.trace = [scenario.record5, scenario.record6] ∧
      kafka.sent w₁.trace = evs ∧ evs.length = 2 := by
  refine ⟨rfl, ?_⟩
  obtain ⟨w₁, evs, hrun, hevs, _, hsent, hmarked, _⟩ :=
    consumerMessages_trace scenario.sinkDown scenario.orders
      [scenario.record5, scenario.record6] true { Path := bytes "orders" } rfl
  refine ⟨w₁, evs, hrun, hmarked, hsent, ?_⟩
  have := congrArg List.length hevs
  simpa using this.symm

/-- Cancellation is not observed inside a partition's stream: when the stop signal
is not yet raised at the `select` that receives a partition, `pollForMessages`
attempts delivery for every record of that partition's stream, whenever the signal
is raised afterwards, and goes on from there (or blocks, if the stream stays
open). -/
theorem pollLoop_runs_whole_stream (env : kafka.World) (a : kafka.Adapter) (ch : kafka.Channels)
    (pc : kafka.PartitionConsumer) (rest : List kafka.PartitionConsumer) (i : Nat) (w : kafka.Run)
    (u : kafka.URLRef) (h : env.parseURLRef a.Topic = some u)
    (hstop : kafka.stopRaised ch.stopAfter w = false) :
    ∃ (w₁ : kafka.Run) (evs : List kafka.Event),
      w₁.sends = w.sends + pc.messages.length ∧
      w₁.trace = w.trace ++ kafka.alternate evs pc.messages ∧
      evs.length = pc.messages.length ∧
      kafka.pollLoop env a ch (pc :: rest) i w =
        (if pc.closed then kafka.pollLoop env a ch rest (i + 1) w₁ else .blocked w₁) := by
  obtain ⟨w₁, evs, hrun, hs, hevs, htr⟩ := consumerLoop_trace env a pc.closed u h pc.messages w
  have hlen : evs.length = pc.messages.length := by
    have := congrArg List.length hevs
    simpa using this.symm
  refine ⟨w₁, evs, hs, htr, hlen, ?_⟩
  conv_lhs => rw [kafka.pollLoop]
  simp only [hstop, Bool.false_and, Bool.false_eq_true, if_false, kafka.consumerMessages, hrun]
  cases pc.closed <;> simp

/-- The scenario `stopMidStream` as an instance: the signal is not raised at the first
`select`, the three records are all delivered, and the loop goes on to its second
`select`. -/
theorem pollLoop_runs_whole_stream_witness :
    scenario.sinkUp.parseURLRef scenario.orders.Topic = some { Path := bytes "orders" } ∧
    kafka.stopRaised scenario.stopMidStream.stopAfter {} = false ∧
    ∃ (w₁ : kafka.Run) (evs : List kafka.Event),
      w₁.sends = 3 ∧ evs.length = 3 ∧
      kafka.pollLoop scenario.sinkUp scenario.orders scenario.stopMidStream
          [{ messages := [scenario.record5, scenario.record6, scenario.record7], closed := true }]
          0 {} =
        kafka.pollLoop scenario.sinkUp scenario.orders scenario.stopMidStream [] 1 w₁ := by
  refine ⟨rfl, rfl, ?_⟩
  obtain ⟨w₁, evs, hs, _, hlen, hrun⟩ :=
    pollLoop_runs_whole_stream scenario.sinkUp scenario.orders scenario.stopMidStream
      { messages := [scenario.record5, scenario.record6, scenario.record7], closed := true }
      [] 0 {} { Path := bytes "orders" } rfl rfl
  exact ⟨w₁, evs, by simpa using hs, by simpa using hlen, by simpa using hrun⟩

/-- C8 at a concrete input: one partition with the stream `[record5, record6,
record7]`, the stop signal raised while the first delivery is in flight.
`pollForMessages` returns `nil`, but only after all three records have been sent
and marked: the deliveries are the whole stream, not the prefix ending at the
record in flight. -/
theorem pollForMessages_ignores_stop_mid_stream :
    ∃ w : kafka.Run,
      kafka.pollForMessages scenario.sinkUp scenario.orders scenario.stopMidStream = .done none w ∧
      w.sends = 3 ∧
      (kafka.sent w.trace).length = 3 ∧
      kafka.marked w.trace = [scenario.record5, scenario.record6, scenario.record7] :=
  ⟨_, rfl, rfl, rfl, rfl⟩

/-- C8, second concrete input: the same stream left open (the partition stays
assigned). After the stop signal `pollForMessages` never returns: the worker blocks
on the stream and the `select` is not reached again. -/
theorem pollForMessages_blocks_on_open_stream :
    ∃ w : kafka.Run,
      kafka.pollForMessages scenario.sinkUp scenario.orders
        { scenario.stopMidStream with
          partitions := [{ messages := [scenario.record5, scenario.record6], closed := false }] }
        = .blocked w ∧
      w.sends = 2 :=
  ⟨_, rfl, rfl⟩

/-! ## The partition goroutine of `kafkaevents.pollLoop` -/

/-- The loop alone can run through a whole stream: after `2 * n` of its steps all
`n` offsets are marked and none of the `n` deliveries has been made. -/
theorem kafkaevents_loop_runs_ahead (msgs : List ConsumerMessage) :
    ∀ (pending : List ConsumerMessage) (trace : List kafkaevents.Action),
      kafkaevents.run (List.replicate (2 * msgs.length) .loop)
          { stream := msgs, posted := none, pending := pending, trace := trace } =
        some { stream := [], posted := none, pending := pending ++ msgs,
               trace := trace ++ msgs.map .markOffset } := by
  induction msgs with
  | nil => intro pending trace; simp [kafkaevents.run]
  | cons m rest ih =>
    intro pending trace
    have h2 : 2 * (m :: rest).length = (2 * rest.length) + 1 + 1 := by
      simp only [List.length_cons]; omega
    rw [h2, List.replicate_succ, List.replicate_succ]
    simp only [kafkaevents.run, kafkaevents.step]
    rw [ih]
    simp

/-- C7 at a concrete input: with the stream `[record5, record6]`, the schedule
loop, loop, loop, loop, post 1, post 0 is possible and gives the trace
`[markOffset 5, markOffset 6, send 6, send 5]`: offset 5 is committed before its
delivery is attempted, and offset 6 is delivered before offset 5. -/
theorem kafkaevents_commit_before_delivery :
    kafkaevents.run [.loop, .loop, .loop, .loop, .post 1, .post 0]
        { stream := [scenario.record5, scenario.record6] } =
      some { stream := [], posted := none, pending := [],
             trace := [.markOffset scenario.record5, .markOffset scenario.record6,
                       .send scenario.record6, .send scenario.record5] } := by
  decide

/-! ## Start-up: `getRequiredEnv`, `main`, `MakeReceiveAdapter` -/

theorem LookupEnv_eq_none_iff (env : cmd.Environ) (key : GoString) :
    cmd.LookupEnv env key = none ↔ key ∉ env.map Prod.fst := by
  induction env with
  | nil => simp [cmd.LookupEnv]
  | cons p rest ih =>
    obtain ⟨k, v⟩ := p
    unfold cmd.LookupEnv
    by_cases hk : k = key
    · simp [hk]
    · simp only [hk, if_false, ih, List.map_cons, List.mem_cons, not_or]
      exact ⟨fun h => ⟨fun hc => hk hc.symm, h⟩, fun h => h.2⟩

theorem getRequiredEnv_ok_of_start (env : cmd.Environ) (key val : GoString)
    (h : cmd.getRequiredEnv env key = .ok val) : cmd.LookupEnv env key = some val := by
  unfold cmd.getRequiredEnv at h
  cases hl : cmd.LookupEnv env key with
  | none => rw [hl] at h; cases h
  | some v => rw [hl] at h; cases h; rfl

theorem main_start_fields (flagsParse loggerBuilds : Bool) (env : cmd.Environ)
    (a : kafkaevents.Adapter) (h : cmd.main flagsParse loggerBuilds env = .start a) :
    cmd.getRequiredEnv env cmd.envBrokers = .ok a.Brokers ∧
    cmd.getRequiredEnv env cmd.evenTopic = .ok a.Topic ∧
    cmd.getRequiredEnv env cmd.envConsumerGroup = .ok a.ConsumerGroup ∧
    cmd.getRequiredEnv env cmd.envSinkURI = .ok a.SinkURI := by
  unfold cmd.main at h
  cases flagsParse <;> cases loggerBuilds <;> simp only [Bool.not_true, Bool.not_false,
    Bool.false_eq_true, if_true, if_false] at h <;> try cases h
  cases hb : cmd.getRequiredEnv env cmd.envBrokers with
  | error k => rw [hb] at h; cases h
  | ok b =>
    cases ht : cmd.getRequiredEnv env cmd.evenTopic with
    | error k => rw [hb, ht] at h; cases h
    | ok t =>
      cases hg : cmd.getRequiredEnv env cmd.envConsumerGroup with
      | error k => rw [hb, ht, hg] at h; cases h
      | ok g =>
        cases hs : cmd.getRequiredEnv env cmd.envSinkURI with
        | error k => rw [hb, ht, hg, hs] at h; cases h
        | ok s =>
          rw [hb, ht, hg, hs] at h
          cases h
          exact ⟨rfl, rfl, rfl, rfl⟩

/-- C9. For every process environment, `main` reaches `adapter.Start` only if all
four required settings (`KAFKA_BROKERS`, `KAFKA_TOPIC`, `KAFKA_CONSUMER_GROUP`,
`SINK_URI`) are present, and then the adapter holds their values; it does reach it
when they are present, the flags parse and the logger builds; and
`getRequiredEnv(k)` ends the process exactly when `k` is absent from the
environment and otherwise returns the value stored under `k` unchanged. -/
theorem main_requires_all_settings (flagsParse loggerBuilds : Bool) (env : cmd.Environ) :
    (∀ a, cmd.main flagsParse loggerBuilds env = .start a →
        cmd.LookupEnv env (bytes "KAFKA_BROKERS") = some a.Brokers ∧
        cmd.LookupEnv env (bytes "KAFKA_TOPIC") = some a.Topic ∧
        cmd.LookupEnv env (bytes "KAFKA_CONSUMER_GROUP") = some a.ConsumerGroup ∧
        cmd.LookupEnv env (bytes "SINK_URI") = some a.SinkURI) ∧
    (∀ b t g s,
        cmd.LookupEnv env (bytes "KAFKA_BROKERS") = some b →
        cmd.LookupEnv env (bytes "KAFKA_TOPIC") = some t →
        cmd.LookupEnv env (bytes "KAFKA_CONSUMER_GROUP") = some g →
        cmd.LookupEnv env (bytes "SINK_URI") = some s →
        cmd.main true true env = .start { Brokers := b, Topic := t, ConsumerGroup := g, SinkURI := s }) ∧
    (∀ k, (cmd.getRequiredEnv env k = .error k ↔ k ∉ env.map Prod.fst) ∧
        (∀ e, cmd.getRequiredEnv env k = .error e → e = k) ∧
        (∀ v, cmd.LookupEnv env k = some v → cmd.getRequiredEnv env k = .ok v)) := by
  refine ⟨?_, ?_, ?_⟩
  · intro a h
    obtain ⟨hb, ht, hg, hs⟩ := main_start_fields flagsParse loggerBuilds env a h
    exact ⟨getRequiredEnv_ok_of_start env _ _ hb, getRequiredEnv_ok_of_start env _ _ ht,
      getRequiredEnv_ok_of_start env _ _ hg, getRequiredEnv_ok_of_start env _ _ hs⟩
  · intro b t g s hb ht hg hs
    have hb₁ : cmd.LookupEnv env cmd.envBrokers = some b := hb
    have ht₁ : cmd.LookupEnv env cmd.evenTopic = some t := ht
    have hg₁ : cmd.LookupEnv env cmd.envConsumerGroup = some g := hg
    have hs₁ : cmd.LookupEnv env cmd.envSinkURI = some s := hs
    simp [cmd.main, cmd.getRequiredEnv, hb₁, ht₁, hg₁, hs₁]
  · intro k
    refine ⟨?_, ?_, ?_⟩
    · rw [← LookupEnv_eq_none_iff]
      unfold cmd.getRequiredEnv
      cases cmd.LookupEnv env k <;> simp
    · intro e he
      unfold cmd.getRequiredEnv at he
      cases hl : cmd.LookupEnv env k with
      | none => rw [hl] at he; cases he; rfl
      | some v => rw [hl] at he; cases he
    · intro v hv
      simp [cmd.getRequiredEnv, hv]

theorem receiveAdapter_containers (args : resources.ReceiveAdapterArgs) :
    ∃ c, (resources.MakeReceiveAdapter args).Containers = [c] ∧
      resources.processEnv c =
        [(bytes "KAFKA_BROKERS", args.Source.Brokers), (bytes "KAFKA_TOPIC", args.Source.Topic),
         (bytes "KAFKA_CONSUMER_GROUP_ID", args.Source.ConsumerGroupID),
         (bytes "SINK_URI", args.SinkURI)] :=
  ⟨_, rfl, rfl⟩

/-- C10 on the code: for every `ReceiveAdapterArgs`, the Deployment has one
container; its environment does not define `KAFKA_CONSUMER_GROUP` (it defines
`KAFKA_CONSUMER_GROUP_ID`), so `getRequiredEnv(envConsumerGroup)` ends a process
started with exactly that environment, and `main` never reaches `adapter.Start`. -/
theorem receiveAdapter_env_misses_consumer_group (args : resources.ReceiveAdapterArgs) :
    ∃ c, (resources.MakeReceiveAdapter args).Containers = [c] ∧
      cmd.LookupEnv (resources.processEnv c) cmd.envBrokers = some args.Source.Brokers ∧
      cmd.LookupEnv (resources.processEnv c) cmd.evenTopic = some args.Source.Topic ∧
      cmd.LookupEnv (resources.processEnv c) cmd.envSinkURI = some args.SinkURI ∧
      cmd.LookupEnv (resources.processEnv c) cmd.envConsumerGroup = none ∧
      cmd.getRequiredEnv (resources.processEnv c) cmd.envConsumerGroup =
        .error (bytes "KAFKA_CONSUMER_GROUP") ∧
      cmd.main true true (resources.processEnv c) = .fatalMissing (bytes "KAFKA_CONSUMER_GROUP") := by
  obtain ⟨c, hc, henv⟩ := receiveAdapter_containers args
  refine ⟨c, hc, ?_, ?_, ?_, ?_, ?_, ?_⟩ <;> rw [henv] <;> rfl
